import Mathlib

/-!
Shallow embedding of the `async_chess_client` asset-loading layer:
the chess-piece taxonomy (`src/chess.rs`) and the texture cache
(`src/cacher.rs`).  Rust enums become inductive types, `String` stays
`String`, `PathBuf` is modelled as a `String`, the opaque GPU texture
handle becomes an opaque-but-inhabited structure, the `HashMap` becomes
an association list whose insert erases the old binding and appends,
and the mutable `PistonWindow` texture loader becomes an oracle
`String → Except String G2dTexture` from the joined file path to either
a texture or an load-error message.  Fallible Rust functions return
`Except`; `&mut self` methods pass the `Cacher` state explicitly.
-/

instance {ε α : Type _} [DecidableEq ε] [DecidableEq α] :
    DecidableEq (Except ε α) := fun x y =>
  match x, y with
  | .ok a, .ok b =>
      if h : a = b then .isTrue (by rw [h]) else .isFalse (by simp [h])
  | .ok _, .error _ => .isFalse (by simp)
  | .error _, .ok _ => .isFalse (by simp)
  | .error a, .error b =>
      if h : a = b then .isTrue (by rw [h]) else .isFalse (by simp [h])

/-- Enum `ChessPieceKind` from `src/chess.rs`, with all of the chess piece
kinds, in source declaration order. -/
inductive ChessPieceKind where
  | Bishop
  | Knight
  | Pawn
  | Queen
  | King
  | Rook
deriving DecidableEq, Repr, Fintype

/-- Numeric discriminants of `ChessPieceKind` as written in the source
(`Bishop = 2, Knight = 1, Pawn = 0, Queen = 4, King = 5, Rook = 3`);
Rust's derived `PartialOrd`/`Ord` on a fieldless enum compare these. -/
def ChessPieceKind.rank : ChessPieceKind → Nat
  | .Bishop => 2
  | .Knight => 1
  | .Pawn => 0
  | .Queen => 4
  | .King => 5
  | .Rook => 3

/-- Iteration sequence produced by strum's derived `EnumIter`
(`ChessPieceKind::iter`): the variants in declaration order. -/
def ChessPieceKind.iter : List ChessPieceKind :=
  [.Bishop, .Knight, .Pawn, .Queen, .King, .Rook]

/-- Display form produced by strum's derived `Display`: the variant name
verbatim. -/
def ChessPieceKind.toName : ChessPieceKind → String
  | .Bishop => "Bishop"
  | .Knight => "Knight"
  | .Pawn => "Pawn"
  | .Queen => "Queen"
  | .King => "King"
  | .Rook => "Rook"

/-- Rust `str::to_lowercase` restricted to its ASCII fragment,
per character.  Rust's full function uses the whole Unicode case table;
this development applies `strToLower` only to strings whose uppercase
letters are ASCII — the six piece display names, their case variants and
the derived file names — where the two agree exactly.  Where a claim
ranges over arbitrary input (the parser's normalization), the
normalization is kept abstract instead (`tryFromWith`). -/
def strToLower (s : String) : String := ⟨s.data.map Char.toLower⟩

/-- Rust `char::is_whitespace`: the Unicode White_Space property, i.e.
exactly the code points U+0009–U+000D, U+0020, U+0085, U+00A0, U+1680,
U+2000–U+200A, U+2028, U+2029, U+202F, U+205F and U+3000. -/
def charIsWhitespace (c : Char) : Bool :=
  [0x0009, 0x000A, 0x000B, 0x000C, 0x000D, 0x0020, 0x0085, 0x00A0,
   0x1680, 0x2000, 0x2001, 0x2002, 0x2003, 0x2004, 0x2005, 0x2006,
   0x2007, 0x2008, 0x2009, 0x200A, 0x2028, 0x2029, 0x202F, 0x205F,
   0x3000].contains c.toNat

/-- Rust `str::trim`: drop Unicode whitespace from both ends. -/
def strTrim (s : String) : String :=
  ⟨((s.data.dropWhile charIsWhitespace).reverse.dropWhile
      charIsWhitespace).reverse⟩

/-- Enum `ChessPieceKindParseError` from `src/chess.rs`. -/
inductive ChessPieceKindParseError where
  | FailedMatch (s : String)
deriving DecidableEq, Repr

/-- Match arm chain of `TryFrom<String> for ChessPieceKind` applied to the
already-normalized (trimmed, lowercased) string, in source arm order. -/
def ChessPieceKind.tryFromNorm (v : String) :
    Except ChessPieceKindParseError ChessPieceKind :=
  if v = "bishop" then .ok .Bishop
  else if v = "knight" then .ok .Knight
  else if v = "pawn" then .ok .Pawn
  else if v = "queen" then .ok .Queen
  else if v = "king" then .ok .King
  else if v = "rook" then .ok .Rook
  else .error (.FailedMatch v)

/-- Function `TryFrom<String>::try_from` for `ChessPieceKind`: trims and
lowercases the input, then matches it against the six lowercase names. -/
def ChessPieceKind.tryFrom (value : String) :
    Except ChessPieceKindParseError ChessPieceKind :=
  ChessPieceKind.tryFromNorm (strToLower (strTrim value))

/-- Parsing pipeline with the normalization step abstract: in the source,
`value.trim().to_lowercase()` is a pair of std-library calls whose exact
behavior (full Unicode trimming and case mapping) lives outside this
repository, so — as with the directory search and the texture loader —
the normalizer is taken as an oracle parameter.  `tryFrom` is the
instance of this at the concrete model normalizer
`strToLower ∘ strTrim`. -/
def ChessPieceKind.tryFromWith (normalize : String → String)
    (value : String) : Except ChessPieceKindParseError ChessPieceKind :=
  ChessPieceKind.tryFromNorm (normalize value)

/-- Struct `ChessPiece` from `src/chess.rs`: a kind plus a color flag. -/
structure ChessPiece where
  kind : ChessPieceKind
  is_white : Bool
deriving DecidableEq, Repr

/-- Function `ChessPiece::all_variants`: for each kind in iteration order,
push the black then the white piece of that kind. -/
def ChessPiece.all_variants : List ChessPiece :=
  ChessPieceKind.iter.foldl
    (fun v el => v ++ [{ kind := el, is_white := false },
                       { kind := el, is_white := true }]) []

/-- Function `ChessPiece::to_file_name`:
`format!("{}_{}.png", color, kind.to_string().to_lowercase())` with color
prefix `white`/`black`. -/
def ChessPiece.to_file_name (p : ChessPiece) : String :=
  (if p.is_white then "white" else "black") ++ "_"
    ++ strToLower p.kind.toName ++ ".png"

/-- Output of the manual `Debug` impl for `ChessPiece`
(`debug_struct` with the kind's display string and the color flag). -/
def ChessPiece.debugFmt (p : ChessPiece) : String :=
  "ChessPiece \x7b kind: \"" ++ p.kind.toName ++ "\", is_white: "
    ++ (if p.is_white then "true" else "false") ++ " \x7d"

/-- Manual `PartialOrd` impl for `ChessPiece`: compare `is_white` first
(Rust `bool`: `false < true`), and on equality compare the kinds by their
derived order, i.e. by discriminant (`rank`).  Both underlying
comparisons are total, so the result is always `some`. -/
def ChessPiece.pCmp (a b : ChessPiece) : Option Ordering :=
  match compare a.is_white b.is_white with
  | .eq => some (compare a.kind.rank b.kind.rank)
  | ord => some ord

/-- The `Ord` impl for `ChessPiece`: unwraps `partial_cmp`, and on `none`
aborts via `unwrap_log_error` with a context message — modelled as the
`Except.error` branch, which the theorems show is unreachable. -/
def ChessPiece.cmp (a b : ChessPiece) : Except String Ordering :=
  match ChessPiece.pCmp a b with
  | some o => .ok o
  | none => .error ("comparing " ++ a.debugFmt ++ " to " ++ b.debugFmt)

/-- Opaque stand-in for `piston_window::G2dTexture`: a loaded texture
handle, distinguishable only by an abstract id. -/
structure G2dTexture where
  id : Nat
deriving DecidableEq, Repr

/-- Struct `Cacher` from `src/cacher.rs`: the resolved `assets` base path
(a `PathBuf`, modelled as a string) and the name-to-texture `HashMap`,
modelled as an association list with one binding per key. -/
structure Cacher where
  path : String
  assets : List (String × G2dTexture)
deriving DecidableEq, Repr

/-- Rust `PathBuf::join` for our string-modelled paths. -/
def pathJoin (base p : String) : String := base ++ "/" ++ p

/-- Insertion into the modelled `HashMap`: erase any old binding for the
key, then append the new one (Rust's `HashMap::insert` replaces). -/
def assetsInsert (m : List (String × G2dTexture)) (k : String)
    (v : G2dTexture) : List (String × G2dTexture) :=
  (m.filter (fun kv => kv.1 != k)) ++ [(k, v)]

/-- Method `Cacher::get`: a pure `HashMap` lookup; the receiver is an
immutable borrow (`&self`), so the cache state cannot change. -/
def Cacher.get (c : Cacher) (p : String) : Option G2dTexture :=
  (c.assets.find? (fun kv => kv.1 == p)).map (fun kv => kv.2)

/-- Method `Cacher::insert`: join the file name to the base path, ask the
window (the loader oracle) for a texture at that path; on success store
it under the original file-name key, on failure report
`Unable to find texture` with the cause and leave the map untouched. -/
def Cacher.insert (c : Cacher) (p : String)
    (win : String → Except String G2dTexture) : Except String Cacher :=
  match win (pathJoin c.path p) with
  | .ok tex => .ok { c with assets := assetsInsert c.assets p tex }
  | .error e => .error ("Unable to find texture: " ++ e)

/-- First loop of `Cacher::populate` over the piece variants: insert each
variant's file, and on the first failure stop, wrapping the error with
the variant's `Debug` form.  Returns the cache state reached together
with the loop's outcome (`&mut self`: mutations before a failure are
kept). -/
def Cacher.populateVariants (win : String → Except String G2dTexture) :
    Cacher → List ChessPiece → Cacher × Except String Unit
  | c, [] => (c, .ok ())
  | c, v :: rest =>
    match Cacher.insert c v.to_file_name win with
    | .ok c2 => Cacher.populateVariants win c2 rest
    | .error e =>
        (c, .error ("Unable to insert " ++ v.debugFmt ++ ": " ++ e))

/-- Rust `Debug` form of a `&str`, used for the extra-file error
context. -/
def strDebug (s : String) : String := "\"" ++ s ++ "\""

/-- Second loop of `Cacher::populate` over the fixed extra file names,
wrapping a failure with the extra name's `Debug` form. -/
def Cacher.populateExtras (win : String → Except String G2dTexture) :
    Cacher → List String → Cacher × Except String Unit
  | c, [] => (c, .ok ())
  | c, p :: rest =>
    match Cacher.insert c p win with
    | .ok c2 => Cacher.populateExtras win c2 rest
    | .error e =>
        (c, .error ("Unable to insert " ++ strDebug p ++ ": " ++ e))

/-- Fixed extra file names from `Cacher::populate`. -/
def extraFiles : List String := ["board_alt.png", "highlight.png", "selected.png"]

/-- Method `Cacher::populate`: load every piece variant's file in
`all_variants` order, then the three extras, stopping at the first
failure (`?` propagation). -/
def Cacher.populate (c : Cacher)
    (win : String → Except String G2dTexture) :
    Cacher × Except String Unit :=
  match Cacher.populateVariants win c ChessPiece.all_variants with
  | (c2, .ok ()) => Cacher.populateExtras win c2 extraFiles
  | (c2, .error e) => (c2, .error e)

/-- Method `Cacher::new`: the `find_folder` search for the `assets`
directory is external (filesystem), so its outcome is an oracle
argument; on success the cache starts with the found path and an empty
map. -/
def Cacher.new (found : Except String String) : Except String Cacher :=
  match found with
  | .ok p => .ok { path := p, assets := [] }
  | .error e => .error e

/-- Method `Cacher::new_and_populate`: `new()?` then `populate(win)?`,
returning the populated cache. -/
def Cacher.new_and_populate (found : Except String String)
    (win : String → Except String G2dTexture) : Except String Cacher :=
  match Cacher.new found with
  | .ok c =>
    match Cacher.populate c win with
    | (c2, .ok ()) => .ok c2
    | (_, .error e) => .error e
  | .error e => .error e

/-- Success test on an `Except` value (as Rust's `Result::is_ok`). -/
def exceptIsOk {ε α : Type _} : Except ε α → Bool
  | .ok _ => true
  | .error _ => false

/-- Full load sequence of `Cacher::populate`, each file name paired with
the `Debug` context that a failure on it would report: the twelve
variant files first, then the three extras. -/
def loadPlan : List (String × String) :=
  ChessPiece.all_variants.map (fun v => (v.to_file_name, v.debugFmt))
    ++ extraFiles.map (fun p => (p, strDebug p))

/-- Both `populate` loops, merged over the name/context plan list; the
lemmas below show `populate` equals this loop run on `loadPlan`. -/
def Cacher.populateGo (win : String → Except String G2dTexture) :
    Cacher → List (String × String) → Cacher × Except String Unit
  | c, [] => (c, .ok ())
  | c, (p, ctx) :: rest =>
    match Cacher.insert c p win with
    | .ok c2 => Cacher.populateGo win c2 rest
    | .error e => (c, .error ("Unable to insert " ++ ctx ++ ": " ++ e))

/-- Result of one `insert` call when we only keep the state: the updated
cache on success, the unchanged cache on failure. -/
def Cacher.insertOk (win : String → Except String G2dTexture)
    (c : Cacher) (p : String) : Cacher :=
  match Cacher.insert c p win with
  | .ok c2 => c2
  | .error _ => c

/-- Cache state after inserting a list of file names in order. -/
def Cacher.loadFold (win : String → Except String G2dTexture)
    (c : Cacher) (ns : List String) : Cacher :=
  ns.foldl (fun c p => Cacher.insertOk win c p) c

/-- Key list after inserting the names `ns` into a map whose key list is
`ks` (erase-then-append, mirroring `assetsInsert`). -/
def insNames (ks ns : List String) : List String :=
  ns.foldl (fun ks n => ks.filter (fun s => s != n) ++ [n]) ks

/-- Names recognized by the kind parser, in match-arm order. -/
def sixKindNames : List String :=
  ["bishop", "knight", "pawn", "queen", "king", "rook"]

/-- State-passing rendering of `Cacher::get`: the receiver is an
immutable `&self` borrow, so the call returns the lookup result together
with the cache it was called on, unchanged. -/
def Cacher.getS (c : Cacher) (p : String) : Option G2dTexture × Cacher :=
  (Cacher.get c p, c)

/-- Example loader oracle that succeeds on every path with a fixed
texture handle. -/
def winOk : String → Except String G2dTexture := fun _ => .ok ⟨0⟩

/-- Example loader oracle that fails exactly on the black pawn's file
under the example base path. -/
def winEx : String → Except String G2dTexture := fun p =>
  if p = "assets/black_pawn.png" then .error "missing file" else .ok ⟨7⟩

/-- Example freshly constructed cache rooted at `assets`. -/
def cEx : Cacher := { path := "assets", assets := [] }

/-- First four planned loads — exactly those the example load plan places
before the black pawn's file. -/
def preEx : List (String × String) := loadPlan.take 4

/-- Planned loads after the black pawn's file. -/
def postEx : List (String × String) := loadPlan.drop 5

lemma pv_eq_go (win : String → Except String G2dTexture) :
    ∀ (ps : List ChessPiece) (c : Cacher),
      Cacher.populateVariants win c ps
        = Cacher.populateGo win c
            (ps.map fun v => (v.to_file_name, v.debugFmt)) := by
  intro ps
  induction ps with
  | nil => intro c; rfl
  | cons v rest ih =>
    intro c
    simp only [Cacher.populateVariants, List.map_cons, Cacher.populateGo]
    cases h : Cacher.insert c v.to_file_name win with
    | ok c2 => simp [ih]
    | error e => simp

lemma pe_eq_go (win : String → Except String G2dTexture) :
    ∀ (ps : List String) (c : Cacher),
      Cacher.populateExtras win c ps
        = Cacher.populateGo win c (ps.map fun p => (p, strDebug p)) := by
  intro ps
  induction ps with
  | nil => intro c; rfl
  | cons p rest ih =>
    intro c
    simp only [Cacher.populateExtras, List.map_cons, Cacher.populateGo]
    cases h : Cacher.insert c p win with
    | ok c2 => simp [ih]
    | error e => simp

lemma go_append (win : String → Except String G2dTexture) :
    ∀ (A B : List (String × String)) (c : Cacher),
      Cacher.populateGo win c (A ++ B)
        = match Cacher.populateGo win c A with
          | (c2, .ok _) => Cacher.populateGo win c2 B
          | (c2, .error e) => (c2, .error e) := by
  intro A
  induction A with
  | nil => intro B c; rfl
  | cons q rest ih =>
    intro B c
    obtain ⟨p, ctx⟩ := q
    simp only [List.cons_append, Cacher.populateGo]
    cases h : Cacher.insert c p win with
    | ok c2 => simp [ih]
    | error e => simp

lemma populate_eq_go (c : Cacher) (win : String → Except String G2dTexture) :
    Cacher.populate c win = Cacher.populateGo win c loadPlan := by
  unfold Cacher.populate loadPlan
  rw [pv_eq_go, go_append win]
  rcases hg : Cacher.populateGo win c
      (ChessPiece.all_variants.map fun v => (v.to_file_name, v.debugFmt))
    with ⟨c2, r⟩
  rw [hg]
  cases r with
  | ok u => cases u; exact pe_eq_go win extraFiles c2
  | error e => rfl

lemma insert_path {c : Cacher} {p : String}
    {win : String → Except String G2dTexture} {c2 : Cacher}
    (h : Cacher.insert c p win = .ok c2) : c2.path = c.path := by
  unfold Cacher.insert at h
  cases hw : win (pathJoin c.path p) <;> rw [hw] at h <;> simp_all
  rw [← h]

lemma insert_ok_assets {c : Cacher} {p : String}
    {win : String → Except String G2dTexture} {c2 : Cacher}
    (h : Cacher.insert c p win = .ok c2) :
    ∃ t, win (pathJoin c.path p) = .ok t
      ∧ c2.assets = assetsInsert c.assets p t := by
  unfold Cacher.insert at h
  cases hw : win (pathJoin c.path p) <;> rw [hw] at h <;> simp_all
  rw [← h]

lemma insertOk_path (win : String → Except String G2dTexture)
    (c : Cacher) (p : String) : (Cacher.insertOk win c p).path = c.path := by
  unfold Cacher.insertOk
  cases h : Cacher.insert c p win with
  | ok c2 => exact insert_path h
  | error e => rfl

lemma loadFold_path (win : String → Except String G2dTexture) :
    ∀ (ns : List String) (c : Cacher),
      (Cacher.loadFold win c ns).path = c.path := by
  intro ns
  induction ns with
  | nil => intro c; rfl
  | cons n rest ih =>
    intro c
    show (Cacher.loadFold win (Cacher.insertOk win c n) rest).path = c.path
    rw [ih, insertOk_path]

lemma go_path (win : String → Except String G2dTexture) :
    ∀ (plan : List (String × String)) (c : Cacher),
      (Cacher.populateGo win c plan).1.path = c.path := by
  intro plan
  induction plan with
  | nil => intro c; rfl
  | cons q rest ih =>
    intro c
    obtain ⟨p, ctx⟩ := q
    simp only [Cacher.populateGo]
    cases h : Cacher.insert c p win with
    | ok c2 => rw [ih c2, insert_path h]
    | error e => rfl

lemma go_fail (win : String → Except String G2dTexture) :
    ∀ (pre : List (String × String)) (c : Cacher) (p ctx : String)
      (post : List (String × String)) (e : String),
      (∀ q ∈ pre, exceptIsOk (win (pathJoin c.path q.1)) = true) →
      win (pathJoin c.path p) = .error e →
      Cacher.populateGo win c (pre ++ (p, ctx) :: post)
        = (Cacher.loadFold win c (pre.map Prod.fst),
           .error ("Unable to insert " ++ ctx ++ ": "
             ++ ("Unable to find texture: " ++ e))) := by
  intro pre
  induction pre with
  | nil =>
    intro c p ctx post e _ hfail
    show Cacher.populateGo win c ((p, ctx) :: post) = _
    simp only [Cacher.populateGo]
    unfold Cacher.insert
    rw [hfail]
    rfl
  | cons q rest ih =>
    intro c p ctx post e hpre hfail
    obtain ⟨qp, qctx⟩ := q
    have hq : exceptIsOk (win (pathJoin c.path qp)) = true :=
      hpre (qp, qctx) (by simp)
    simp only [List.cons_append, Cacher.populateGo, List.map_cons]
    cases hw : win (pathJoin c.path qp) with
    | error e2 => rw [hw] at hq; exact absurd hq (by simp [exceptIsOk])
    | ok t =>
      have hins : Cacher.insert c qp win
          = .ok { c with assets := assetsInsert c.assets qp t } := by
        unfold Cacher.insert; rw [hw]
      rw [hins]
      show Cacher.populateGo win { c with assets := assetsInsert c.assets qp t }
          (rest ++ (p, ctx) :: post) = _
      have hio : Cacher.insertOk win c qp
          = { c with assets := assetsInsert c.assets qp t } := by
        unfold Cacher.insertOk; rw [hins]
      rw [show Cacher.loadFold win c (qp :: rest.map Prod.fst)
            = Cacher.loadFold win (Cacher.insertOk win c qp)
                (rest.map Prod.fst) from rfl, hio]
      exact ih _ p ctx post e
        (fun q hq2 => hpre q (List.mem_cons_of_mem _ hq2)) hfail

lemma map_fst_filter (m : List (String × G2dTexture)) (k : String) :
    (m.filter (fun kv => kv.1 != k)).map Prod.fst
      = (m.map Prod.fst).filter (fun s => s != k) := by
  induction m with
  | nil => rfl
  | cons kv rest ih =>
    simp only [List.filter_cons, List.map_cons]
    by_cases h : (kv.1 != k) = true
    · rw [if_pos h, List.map_cons, ih, if_pos h]
    · rw [if_neg h, ih, if_neg h]

lemma map_fst_assetsInsert (m : List (String × G2dTexture)) (k : String)
    (v : G2dTexture) :
    (assetsInsert m k v).map Prod.fst
      = (m.map Prod.fst).filter (fun s => s != k) ++ [k] := by
  unfold assetsInsert
  rw [List.map_append, map_fst_filter]
  rfl

lemma go_ok (win : String → Except String G2dTexture) :
    ∀ (plan : List (String × String)) (c c2 : Cacher),
      Cacher.populateGo win c plan = (c2, .ok ()) →
      c2.path = c.path
        ∧ c2.assets.map Prod.fst
            = insNames (c.assets.map Prod.fst) (plan.map Prod.fst) := by
  intro plan
  induction plan with
  | nil =>
    intro c c2 h
    injection h with h1 _
    subst h1
    exact ⟨rfl, rfl⟩
  | cons q rest ih =>
    intro c c2 h
    obtain ⟨p, ctx⟩ := q
    simp only [Cacher.populateGo] at h
    cases hins : Cacher.insert c p win with
    | error e => rw [hins] at h; simp at h
    | ok c' =>
      rw [hins] at h
      obtain ⟨hp, hk⟩ := ih c' c2 h
      obtain ⟨t, _, ha⟩ := insert_ok_assets hins
      refine ⟨by rw [hp, insert_path hins], ?_⟩
      rw [hk, ha, map_fst_assetsInsert]
      rfl

lemma loadFold_keys (win : String → Except String G2dTexture) :
    ∀ (ns : List String) (c : Cacher),
      (∀ n ∈ ns, exceptIsOk (win (pathJoin c.path n)) = true) →
      (Cacher.loadFold win c ns).assets.map Prod.fst
        = insNames (c.assets.map Prod.fst) ns := by
  intro ns
  induction ns with
  | nil => intro c _; rfl
  | cons n rest ih =>
    intro c hok
    have hn := hok n (by simp)
    cases hw : win (pathJoin c.path n) with
    | error e => rw [hw] at hn; exact absurd hn (by simp [exceptIsOk])
    | ok t =>
      have hins : Cacher.insert c n win
          = .ok { c with assets := assetsInsert c.assets n t } := by
        unfold Cacher.insert; rw [hw]
      have hio : Cacher.insertOk win c n
          = { c with assets := assetsInsert c.assets n t } := by
        unfold Cacher.insertOk; rw [hins]
      show (Cacher.loadFold win (Cacher.insertOk win c n) rest).assets.map
          Prod.fst = _
      rw [hio,
        ih { c with assets := assetsInsert c.assets n t }
          (fun m hm => hok m (List.mem_cons_of_mem _ hm))]
      show insNames ((assetsInsert c.assets n t).map Prod.fst) rest = _
      rw [map_fst_assetsInsert]
      rfl

lemma tryFromNorm_not_mem {v : String} (h : v ∉ sixKindNames) :
    ChessPieceKind.tryFromNorm v = .error (.FailedMatch v) := by
  simp only [sixKindNames, List.mem_cons, List.not_mem_nil, or_false,
    not_or] at h
  obtain ⟨h1, h2, h3, h4, h5, h6⟩ := h
  unfold ChessPieceKind.tryFromNorm
  rw [if_neg h1, if_neg h2, if_neg h3, if_neg h4, if_neg h5, if_neg h6]

lemma tryFromNorm_mem {v : String} (h : v ∈ sixKindNames) :
    ∃ k, ChessPieceKind.tryFromNorm v = .ok k ∧ strToLower k.toName = v := by
  simp only [sixKindNames, List.mem_cons, List.not_mem_nil, or_false] at h
  rcases h with rfl | rfl | rfl | rfl | rfl | rfl
  · exact ⟨.Bishop, by decide, by decide⟩
  · exact ⟨.Knight, by decide, by decide⟩
  · exact ⟨.Pawn, by decide, by decide⟩
  · exact ⟨.Queen, by decide, by decide⟩
  · exact ⟨.King, by decide, by decide⟩
  · exact ⟨.Rook, by decide, by decide⟩

lemma loadFold_congr (win win2 : String → Except String G2dTexture) :
    ∀ (ns : List String) (c : Cacher),
      (∀ n ∈ ns, win2 (pathJoin c.path n) = win (pathJoin c.path n)) →
      Cacher.loadFold win2 c ns = Cacher.loadFold win c ns := by
  intro ns
  induction ns with
  | nil => intro c _; rfl
  | cons n rest ih =>
    intro c hag
    have heq : win2 (pathJoin c.path n) = win (pathJoin c.path n) :=
      hag n (by simp)
    have hio : Cacher.insertOk win2 c n = Cacher.insertOk win c n := by
      unfold Cacher.insertOk Cacher.insert
      rw [heq]
    show Cacher.loadFold win2 (Cacher.insertOk win2 c n) rest
        = Cacher.loadFold win (Cacher.insertOk win c n) rest
    rw [hio]
    exact ih (Cacher.insertOk win c n) (fun m hm => by
      rw [insertOk_path]
      exact hag m (List.mem_cons_of_mem _ hm))

/-! Claim theorems. -/

/-- C1 (counterexample): the kind enumeration does NOT yield the order
Bishop, Knight, Pawn, Rook, Queen, King claimed by the spec — in the
source, `Queen` and `King` are declared before `Rook`. -/
theorem c1_iter_not_spec_order :
    ChessPieceKind.iter
      ≠ [ChessPieceKind.Bishop, ChessPieceKind.Knight, ChessPieceKind.Pawn,
         ChessPieceKind.Rook, ChessPieceKind.Queen, ChessPieceKind.King] := by
  decide

/-- C1 (amended): the kind enumeration (`ChessPieceKind::iter`, as used by
`all_variants`) yields the six kind values, each exactly once, in the
fixed declared order Bishop, Knight, Pawn, Queen, King, Rook,
independently of their numeric ranks (the rank sequence along the
enumeration is 2, 1, 0, 4, 5, 3, not sorted). -/
theorem c1_iter_declared_order :
    ChessPieceKind.iter
      = [ChessPieceKind.Bishop, ChessPieceKind.Knight, ChessPieceKind.Pawn,
         ChessPieceKind.Queen, ChessPieceKind.King, ChessPieceKind.Rook]
    ∧ ChessPieceKind.iter.Nodup
    ∧ (∀ k : ChessPieceKind, k ∈ ChessPieceKind.iter)
    ∧ ChessPieceKind.iter.map ChessPieceKind.rank = [2, 1, 0, 4, 5, 3] := by
  decide

/-- C4: any black piece compares strictly below any white piece, pieces of
equal color compare by kind rank, equality of the comparison
characterizes equality, the ranks realize the order
Pawn < Knight < Bishop < Rook < Queen < King, and the twelve pieces form
the strictly increasing chain
(Pawn,false) < ... < (King,false) < (Pawn,true) < ... < (King,true). -/
theorem c4_piece_ordering :
    (∀ a b : ChessPiece, a.is_white = false → b.is_white = true →
        ChessPiece.pCmp a b = some Ordering.lt)
    ∧ (∀ a b : ChessPiece, a.is_white = b.is_white →
        (ChessPiece.pCmp a b = some Ordering.lt ↔ a.kind.rank < b.kind.rank))
    ∧ (∀ a b : ChessPiece,
        ChessPiece.pCmp a b = some Ordering.eq ↔ a = b)
    ∧ ([ChessPieceKind.Pawn, ChessPieceKind.Knight, ChessPieceKind.Bishop,
        ChessPieceKind.Rook, ChessPieceKind.Queen, ChessPieceKind.King].map
          ChessPieceKind.rank = [0, 1, 2, 3, 4, 5])
    ∧ List.Chain' (fun a b => ChessPiece.pCmp a b = some Ordering.lt)
        [⟨.Pawn, false⟩, ⟨.Knight, false⟩, ⟨.Bishop, false⟩, ⟨.Rook, false⟩,
         ⟨.Queen, false⟩, ⟨.King, false⟩, ⟨.Pawn, true⟩, ⟨.Knight, true⟩,
         ⟨.Bishop, true⟩, ⟨.Rook, true⟩, ⟨.Queen, true⟩, ⟨.King, true⟩] := by
  refine ⟨?_, ?_, ?_, by decide, ?_⟩
  · intro a b
    obtain ⟨ka, wa⟩ := a
    obtain ⟨kb, wb⟩ := b
    cases ka <;> cases kb <;> cases wa <;> cases wb <;> decide
  · intro a b
    obtain ⟨ka, wa⟩ := a
    obtain ⟨kb, wb⟩ := b
    cases ka <;> cases kb <;> cases wa <;> cases wb <;> decide
  · intro a b
    obtain ⟨ka, wa⟩ := a
    obtain ⟨kb, wb⟩ := b
    cases ka <;> cases kb <;> cases wa <;> cases wb <;> decide
  · simp only [List.chain'_cons, List.chain'_singleton, and_true]
    decide

/-- C4 witness: the black King is below the white Pawn. -/
theorem c4_piece_ordering_witness :
    ChessPiece.pCmp ⟨.King, false⟩ ⟨.Pawn, true⟩ = some Ordering.lt :=
  c4_piece_ordering.1 ⟨.King, false⟩ ⟨.Pawn, true⟩ rfl rfl

/-- C5: parsing any string that normalizes (trim, lowercase) to a kind's
lowercased display name — in particular the display name itself and any
case variation of it — yields back that kind. -/
theorem c5_display_parse_roundtrip :
    ∀ (k : ChessPieceKind) (s : String),
      strToLower (strTrim s) = strToLower k.toName →
      ChessPieceKind.tryFrom s = .ok k := by
  intro k s h
  unfold ChessPieceKind.tryFrom
  rw [h]
  cases k <;> decide

/-- C5 witness: the display name "Queen" round-trips, also in mixed
case. -/
theorem c5_display_parse_roundtrip_witness :
    ChessPieceKind.tryFrom "Queen" = .ok ChessPieceKind.Queen
    ∧ ChessPieceKind.tryFrom "qUeEn" = .ok ChessPieceKind.Queen :=
  ⟨c5_display_parse_roundtrip ChessPieceKind.Queen "Queen" (by decide),
   c5_display_parse_roundtrip ChessPieceKind.Queen "qUeEn" (by decide)⟩

/-- C7: the parser first normalizes (trim then lowercase — the two std
calls, abstracted as the `normalize` oracle) and then decides purely on
the normalized string: it accepts exactly the six English names, and
every other normalized input yields the recoverable error `FailedMatch`
carrying that normalized string.  Holding for every `normalize`, this in
particular holds at Rust's actual Unicode trim + lowercase; the last
conjunct identifies the source pipeline `tryFrom` as the instance at the
concrete model normalizer. -/
theorem c7_parse_exact_names (normalize : String → String) (s : String) :
    (normalize s ∉ sixKindNames →
        ChessPieceKind.tryFromWith normalize s
          = .error (.FailedMatch (normalize s)))
    ∧ (normalize s ∈ sixKindNames →
        ∃ k, ChessPieceKind.tryFromWith normalize s = .ok k
          ∧ strToLower k.toName = normalize s)
    ∧ (∀ t : String, normalize t = normalize s →
        ChessPieceKind.tryFromWith normalize t
          = ChessPieceKind.tryFromWith normalize s)
    ∧ ChessPieceKind.tryFrom s
        = ChessPieceKind.tryFromWith (fun t => strToLower (strTrim t)) s := by
  refine ⟨fun h => ?_, fun h => ?_, fun t h => ?_, rfl⟩
  · unfold ChessPieceKind.tryFromWith
    exact tryFromNorm_not_mem h
  · obtain ⟨k, hk, hn⟩ := tryFromNorm_mem h
    exact ⟨k, hk, hn⟩
  · unfold ChessPieceKind.tryFromWith
    rw [h]

/-- C7 witness: at the concrete normalizer, "ArchBishop" (with
surrounding whitespace) fails with a parse error naming the normalized
string "archbishop". -/
theorem c7_parse_exact_names_witness :
    ChessPieceKind.tryFromWith (fun t => strToLower (strTrim t))
        "  ArchBishop " = .error (.FailedMatch "archbishop") :=
  (c7_parse_exact_names (fun t => strToLower (strTrim t))
      "  ArchBishop ").1 (by decide)

/-- C6: `all_variants` returns exactly 12 pairwise-distinct pieces, and
the file names derived from them are exactly the twelve expected
black/white piece file names. -/
theorem c6_all_variants_files :
    ChessPiece.all_variants.length = 12
    ∧ ChessPiece.all_variants.Nodup
    ∧ (ChessPiece.all_variants.map ChessPiece.to_file_name).Perm
        ["black_bishop.png", "black_knight.png", "black_pawn.png",
         "black_rook.png", "black_queen.png", "black_king.png",
         "white_bishop.png", "white_knight.png", "white_pawn.png",
         "white_rook.png", "white_queen.png", "white_king.png"] := by
  decide

/-- C8: the partial comparison of two pieces is always defined (`some`),
so the total comparison always lands in the `ok` branch and the
abort branch of the `Ord` impl is unreachable. -/
theorem c8_cmp_never_aborts :
    ∀ a b : ChessPiece,
      ChessPiece.pCmp a b = some ((ChessPiece.pCmp a b).getD Ordering.eq)
      ∧ ChessPiece.cmp a b
          = .ok ((ChessPiece.pCmp a b).getD Ordering.eq) := by
  intro a b
  obtain ⟨ka, wa⟩ := a
  obtain ⟨kb, wb⟩ := b
  cases ka <;> cases kb <;> cases wa <;> cases wb <;> decide

/-- C2: a `populate` call on a freshly constructed cache (empty mapping)
that returns success leaves the mapping with exactly 15 entries, keyed
by the 12 derived piece file names plus the three fixed extras. -/
theorem c2_populate_success
    (c : Cacher) (win : String → Except String G2dTexture) (c2 : Cacher)
    (h0 : c.assets = [])
    (h : Cacher.populate c win = (c2, .ok ())) :
    c2.assets.length = 15
    ∧ (c2.assets.map Prod.fst).Perm
        (["black_bishop.png", "black_knight.png", "black_pawn.png",
          "black_rook.png", "black_queen.png", "black_king.png",
          "white_bishop.png", "white_knight.png", "white_pawn.png",
          "white_rook.png", "white_queen.png", "white_king.png"]
          ++ extraFiles) := by
  rw [populate_eq_go] at h
  obtain ⟨-, hk⟩ := go_ok win loadPlan c c2 h
  rw [h0] at hk
  have hk2 : c2.assets.map Prod.fst
      = ["black_bishop.png", "white_bishop.png", "black_knight.png",
         "white_knight.png", "black_pawn.png", "white_pawn.png",
         "black_queen.png", "white_queen.png", "black_king.png",
         "white_king.png", "black_rook.png", "white_rook.png",
         "board_alt.png", "highlight.png", "selected.png"] := by
    rw [hk]; decide
  constructor
  · have hlen := congrArg List.length hk2
    rw [List.length_map] at hlen
    exact hlen
  · rw [hk2]; decide

/-- C2 witness: populating the example fresh cache with an all-succeeding
loader yields the 15 expected entries. -/
theorem c2_populate_success_witness :
    ((cEx.populate winOk).1).assets.length = 15
    ∧ (((cEx.populate winOk).1).assets.map Prod.fst).Perm
        (["black_bishop.png", "black_knight.png", "black_pawn.png",
          "black_rook.png", "black_queen.png", "black_king.png",
          "white_bishop.png", "white_knight.png", "white_pawn.png",
          "white_rook.png", "white_queen.png", "white_king.png"]
          ++ extraFiles) :=
  c2_populate_success cEx winOk ((cEx.populate winOk).1) rfl (by decide)

/-- C3: if every load before some planned asset succeeds and that asset's
load fails, `populate` returns an error wrapping the underlying cause
and the failing variant's or extra's context, and its outcome is the
same for any loader that agrees on the successful loads and the failing
one — the later assets in the sequence are never consulted. -/
theorem c3_populate_failfast
    (c : Cacher) (win : String → Except String G2dTexture)
    (pre post : List (String × String)) (p ctx e : String)
    (hplan : loadPlan = pre ++ (p, ctx) :: post)
    (hpre : ∀ q ∈ pre, exceptIsOk (win (pathJoin c.path q.1)) = true)
    (hfail : win (pathJoin c.path p) = .error e) :
    (Cacher.populate c win).2
        = .error ("Unable to insert " ++ ctx ++ ": "
            ++ ("Unable to find texture: " ++ e))
    ∧ ∀ win2 : String → Except String G2dTexture,
        (∀ q ∈ pre, win2 (pathJoin c.path q.1) = win (pathJoin c.path q.1)) →
        win2 (pathJoin c.path p) = win (pathJoin c.path p) →
        Cacher.populate c win2 = Cacher.populate c win := by
  have hw := go_fail win pre c p ctx post e hpre hfail
  constructor
  · rw [populate_eq_go, hplan, hw]
  · intro win2 hag hagf
    have hpre2 : ∀ q ∈ pre, exceptIsOk (win2 (pathJoin c.path q.1)) = true :=
      fun q hq => by rw [hag q hq]; exact hpre q hq
    have hfail2 : win2 (pathJoin c.path p) = .error e := by rw [hagf, hfail]
    have hw2 := go_fail win2 pre c p ctx post e hpre2 hfail2
    rw [populate_eq_go c win2, populate_eq_go c win, hplan, hw, hw2]
    have hf : Cacher.loadFold win2 c (pre.map Prod.fst)
        = Cacher.loadFold win c (pre.map Prod.fst) := by
      apply loadFold_congr
      intro n hn
      obtain ⟨q, hq, rfl⟩ := List.mem_map.mp hn
      exact hag q hq
    rw [hf]

/-- C3 witness: with a loader missing exactly `black_pawn.png`, populate
fails reporting the black pawn variant and the underlying cause. -/
theorem c3_populate_failfast_witness :
    (cEx.populate winEx).2
      = .error ("Unable to insert " ++ (ChessPiece.mk .Pawn false).debugFmt
          ++ ": " ++ ("Unable to find texture: " ++ "missing file")) :=
  (c3_populate_failfast cEx winEx preEx postEx "black_pawn.png"
      (ChessPiece.mk .Pawn false).debugFmt "missing file"
      (by decide) (by decide) (by decide)).1

/-- C9: when `populate` fails at a planned asset, no rollback happens:
the resulting cache is exactly the input cache with the successfully
loaded prefix inserted (fold of single insertions), so its key list is
the prior key list extended by the prefix names. -/
theorem c9_failed_populate_no_rollback
    (c : Cacher) (win : String → Except String G2dTexture)
    (pre post : List (String × String)) (p ctx e : String)
    (hplan : loadPlan = pre ++ (p, ctx) :: post)
    (hpre : ∀ q ∈ pre, exceptIsOk (win (pathJoin c.path q.1)) = true)
    (hfail : win (pathJoin c.path p) = .error e) :
    (Cacher.populate c win).1 = Cacher.loadFold win c (pre.map Prod.fst)
    ∧ ((Cacher.populate c win).1.assets.map Prod.fst)
        = insNames (c.assets.map Prod.fst) (pre.map Prod.fst) := by
  have hw := go_fail win pre c p ctx post e hpre hfail
  have h1 : (Cacher.populate c win).1
      = Cacher.loadFold win c (pre.map Prod.fst) := by
    rw [populate_eq_go, hplan, hw]
  refine ⟨h1, ?_⟩
  rw [h1]
  apply loadFold_keys
  intro n hn
  obtain ⟨q, hq, rfl⟩ := List.mem_map.mp hn
  exact hpre q hq

/-- C9 witness: after the example failing populate, the cache holds
exactly the four assets loaded before `black_pawn.png`. -/
theorem c9_failed_populate_no_rollback_witness :
    (cEx.populate winEx).1 = Cacher.loadFold winEx cEx (preEx.map Prod.fst)
    ∧ ((cEx.populate winEx).1.assets.map Prod.fst)
        = insNames (cEx.assets.map Prod.fst) (preEx.map Prod.fst) :=
  c9_failed_populate_no_rollback cEx winEx preEx postEx "black_pawn.png"
    (ChessPiece.mk .Pawn false).debugFmt "missing file"
    (by decide) (by decide) (by decide)

/-- C10: the path is set once by `new` (alongside an empty mapping) and
is preserved by `insert` and `populate`; a cache returned by
`new_and_populate` carries the path found by the directory search; and
`get` returns its result with the cache unchanged. -/
theorem c10_path_set_once :
    (∀ (p : String) (c : Cacher),
        Cacher.new (.ok p) = .ok c → c.path = p ∧ c.assets = [])
    ∧ (∀ (c : Cacher) (p : String) (win : String → Except String G2dTexture)
          (c2 : Cacher), Cacher.insert c p win = .ok c2 → c2.path = c.path)
    ∧ (∀ (c : Cacher) (win : String → Except String G2dTexture),
        (Cacher.populate c win).1.path = c.path)
    ∧ (∀ (found : Except String String)
          (win : String → Except String G2dTexture) (c2 : Cacher),
        Cacher.new_and_populate found win = .ok c2 →
          ∃ p, found = .ok p ∧ c2.path = p)
    ∧ (∀ (c : Cacher) (p : String), Cacher.getS c p = (Cacher.get c p, c)) := by
  refine ⟨?_, ?_, ?_, ?_, fun c p => rfl⟩
  · intro p c h
    injection h with h1
    rw [← h1]
    exact ⟨rfl, rfl⟩
  · intro c p win c2 h
    exact insert_path h
  · intro c win
    rw [populate_eq_go]
    exact go_path win loadPlan c
  · intro found win c2 h
    cases found with
    | error e =>
      exact absurd h (by simp [Cacher.new_and_populate, Cacher.new])
    | ok p =>
      refine ⟨p, rfl, ?_⟩
      have hne : Cacher.new_and_populate (.ok p) win
          = match Cacher.populate { path := p, assets := [] } win with
            | (c2, .ok ()) => .ok c2
            | (_, .error e) => .error e := rfl
      rcases hp : Cacher.populate { path := p, assets := [] } win with ⟨c3, r⟩
      rw [hne, hp] at h
      cases r with
      | error e2 => exact absurd h (by simp)
      | ok u =>
        cases u
        injection h with h2
        rw [← h2]
        have h3 := congrArg Prod.fst hp
        have h4 := go_path win loadPlan { path := p, assets := [] }
        rw [populate_eq_go] at h3
        rw [h3] at h4
        exact h4

/-- C10 witness: `new` on a successful directory search at `assets`
yields that path and an empty mapping. -/
theorem c10_path_set_once_witness :
    (Cacher.mk "assets" []).path = "assets"
    ∧ (Cacher.mk "assets" []).assets = [] :=
  c10_path_set_once.1 "assets" (Cacher.mk "assets" []) rfl
